import Mathlib

/-!
Verification of the HPC job-preparation/launcher tools
(`tools/job_prepper.py`, `tools/job_launcher.py`) against their
natural-language specification.

JSON documents are modelled by the inductive type `JVal`; JSON objects
(Python dicts decoded by `json.load`) are modelled as ordered association
lists with distinct keys, preserving insertion order, which is how CPython
dicts behave.  Numbers are modelled as rationals (`ℚ`), which contain all
the integer and decimal literals appearing in parameter files.
Python exceptions are modelled by the `PyError` type, and fallible code
returns `Except PyError _`.
-/

/-- A JSON value as decoded by Python's `json.load`.  Objects are ordered
association lists (CPython dicts preserve insertion order; keys decoded
from a JSON file are distinct). -/
inductive JVal where
  | jnull
  | jbool (b : Bool)
  | jnum (q : ℚ)
  | jstr (s : String)
  | jlist (xs : List JVal)
  | jdict (kvs : List (String × JVal))

/-- The Python exceptions this code can raise, by kind.  `valueError`
carries the message of a `raise ValueError(msg)`; `keyError` carries the
missing key of a `dict[key]` lookup failure. -/
inductive PyError where
  | valueError (msg : String)
  | keyError (key : String)
  | typeError (msg : String)
  | zeroDivisionError
  | fileNotFoundError
  | jsonDecodeError
  | indexError
  deriving DecidableEq, Repr

/-- Python dict lookup `d[key]` on the association-list model: the first
binding of the key (keys are distinct in dicts decoded from JSON). -/
def lookup : List (String × JVal) → String → Option JVal
  | [], _ => none
  | (k, v) :: rest, key => if k = key then some v else lookup rest key

mutual

/-- Python `==` on decoded JSON values, on the association-list model of
objects.  (Python additionally identifies `True` with `1` and compares
dicts ignoring key order; every comparison performed by this program is
between strings, where the two notions agree.) -/
def jvalEq : JVal → JVal → Bool
  | .jnull, .jnull => true
  | .jbool a, .jbool b => a == b
  | .jnum a, .jnum b => a == b
  | .jstr a, .jstr b => a == b
  | .jlist a, .jlist b => jvalListEq a b
  | .jdict a, .jdict b => jvalDictEq a b
  | _, _ => false

def jvalListEq : List JVal → List JVal → Bool
  | [], [] => true
  | x :: xs, y :: ys => jvalEq x y && jvalListEq xs ys
  | _, _ => false

def jvalDictEq : List (String × JVal) → List (String × JVal) → Bool
  | [], [] => true
  | (k, v) :: xs, (l, w) :: ys => k == l && jvalEq v w && jvalDictEq xs ys
  | _, _ => false

end

/-- Whether a `JVal` is a JSON array (Python `isinstance(x, list)`). -/
def JVal.isList : JVal → Bool
  | .jlist _ => true
  | _ => false

/-- Whether a `JVal` is a JSON object (Python `isinstance(x, dict)`). -/
def JVal.isDict : JVal → Bool
  | .jdict _ => true
  | _ => false

/-- Length of the sequence produced by `numpy.arange(start, stop, step)`
for a nonzero step: `⌈(stop - start) / step⌉`, clamped at zero. -/
def arangeLen (start stop step : ℚ) : ℕ :=
  (⌈(stop - start) / step⌉).toNat

/-- `numpy.arange(start, stop, step)` for a nonzero rational step: the
values `start + i * step` for `0 ≤ i < arangeLen start stop step`, i.e.
the half-open interval `[start, stop)` sampled every `step`
(`job_prepper.py` line 246, `np.arange(...).tolist()`). -/
def npArange (start stop step : ℚ) : List ℚ :=
  (List.range (arangeLen start stop step)).map (fun i : ℕ => (start + (i : ℚ) * step : ℚ))

/-- One iteration of the loop body of `add_array_parameters`
(`job_prepper.py` lines 242-253): a list value is used as-is; a dict value
is looked up at `"start"`, `"end"`, `"step"` (in evaluation order, raising
`KeyError` at the first missing key) and fed to `np.arange`; any other
value raises `ValueError("Invalid range type")`.  `np.arange` itself
raises on a zero step and on non-numeric bounds. -/
def expandValue : JVal → Except PyError (List JVal)
  | .jlist xs => .ok xs
  | .jdict d =>
    match lookup d "start" with
    | none => .error (.keyError "start")
    | some vstart =>
      match lookup d "end" with
      | none => .error (.keyError "end")
      | some vend =>
        match lookup d "step" with
        | none => .error (.keyError "step")
        | some vstep =>
          match vstart, vend, vstep with
          | .jnum a, .jnum b, .jnum c =>
            if c = 0 then .error .zeroDivisionError
            else .ok ((npArange a b c).map .jnum)
          | _, _, _ => .error (.typeError "arange")
  | _ => .error (.valueError "Invalid range type")

/-- The `param_ranges` accumulation loop of `add_array_parameters`
(lines 239-253): expand each declared parameter's value in order,
propagating the first exception. -/
def expandRanges : List (String × JVal) → Except PyError (List (List JVal))
  | [] => .ok []
  | p :: rest =>
    match expandValue p.2 with
    | .error e => .error e
    | .ok r =>
      match expandRanges rest with
      | .error e => .error e
      | .ok rs => .ok (r :: rs)

/-- `itertools.product(*param_ranges)` (line 255): the cross product, the
first sequence varying slowest. -/
def itertoolsProduct {α : Type} : List (List α) → List (List α)
  | [] => [[]]
  | l :: ls => l.flatMap (fun x => (itertoolsProduct ls).map (fun t => x :: t))

/-- `add_array_parameters` (`job_prepper.py` lines 227-261): expand every
parameter of the range specification to its value sequence, take the cross
product, and turn each combination into a dict by zipping it with the
declared parameter names (`dict(zip(param_names, combination))`).
The source iterates `param_names` and indexes the dict; since dict keys
are distinct this is the same as iterating the items in order. -/
def add_array_parameters (range_array_params : List (String × JVal)) :
    Except PyError (List (List (String × JVal))) :=
  match expandRanges range_array_params with
  | .error e => .error e
  | .ok param_ranges =>
    let param_names := range_array_params.map Prod.fst
    let combinations := itertoolsProduct param_ranges
    .ok (combinations.map (fun combination => param_names.zip combination))

/-- The whitespace characters recognised by Python's `str.strip()`,
`str.split()` and `int()` (restricted to ASCII, which covers every string
this program handles). -/
def isPySpace (c : Char) : Bool :=
  c == ' ' || c == '\t' || c == '\n' || c == '\r' || c == '\x0b' || c == '\x0c'

/-- Python `str.strip()`: remove leading and trailing whitespace. -/
def pyStrip (s : String) : String :=
  String.mk (((s.data.dropWhile isPySpace).reverse.dropWhile isPySpace).reverse)

/-- Continue parsing the digits of a Python integer literal after its
first digit: further digits, with single underscores allowed only between
two digits (`int("1_000")` is valid, `int("1_")`, `int("1__0")` are not). -/
def digitsToNat : List Char → ℕ → Option ℕ
  | [], acc => some acc
  | '_' :: c :: cs, acc =>
    if c.isDigit then digitsToNat cs (acc * 10 + (c.toNat - 48)) else none
  | ['_'], _ => none
  | c :: cs, acc => if c.isDigit then digitsToNat cs (acc * 10 + (c.toNat - 48)) else none

/-- Parse a nonempty unsigned digit string (with Python's underscore
grouping rule); `none` models `int()` raising `ValueError`. -/
def parseUDigits : List Char → Option ℕ
  | [] => none
  | c :: cs => if c.isDigit then digitsToNat cs (c.toNat - 48) else none

/-- Python `int(s)` on a decoded string: surrounding whitespace is
ignored, then an optional single `+`/`-` sign, then a nonempty digit
string; anything else raises `ValueError` (modelled as `none`). -/
def pyInt (s : String) : Option ℤ :=
  match ((s.data.dropWhile isPySpace).reverse.dropWhile isPySpace).reverse with
  | '+' :: rest => (parseUDigits rest).map (fun n => (n : ℤ))
  | '-' :: rest => (parseUDigits rest).map (fun n => -(n : ℤ))
  | rest => (parseUDigits rest).map (fun n => (n : ℤ))

/-- Remove every (leftmost, non-overlapping) occurrence of the nonempty
pattern `p :: ps` from a character list. -/
def removeOccAux (p : Char) (ps : List Char) : List Char → List Char
  | [] => []
  | c :: cs =>
    if (p :: ps).isPrefixOf (c :: cs) then removeOccAux p ps (cs.drop ps.length)
    else c :: removeOccAux p ps cs
  termination_by l => l.length
  decreasing_by
    · simp only [List.length_drop, List.length_cons]
      omega
    · simp only [List.length_cons]
      omega

/-- Python `s.replace(old, "")`: delete every occurrence of `old` in `s`
(all occurrences, not only a leading one — this matters for
`create_directory_structure`). -/
def pyRemoveAll (old s : String) : String :=
  match old.data with
  | [] => s
  | p :: ps => String.mk (removeOccAux p ps s.data)

/-- Python `s.startswith(pre)`. -/
def startswith (pre s : String) : Bool :=
  pre.data.isPrefixOf s.data

/-- The numbering logic of `create_directory_structure`
(`job_prepper.py` lines 82-97), as a pure function of the names of the
existing immediate subdirectories of the parent directory: filter the
names starting with the prefix, for each apply
`int(dir_name.replace(prefix, ""))` — skipping those whose stripped form
does not parse — fold a running maximum starting from `0`, and return
`highest_num + 1` as the suffix of the directory to create. -/
def nextRunNumber (pre : String) (entries : List String) : ℤ :=
  let existing_dirs := entries.filter (fun d => startswith pre d)
  let highest_num : ℤ := existing_dirs.foldl
    (fun highest d =>
      match pyInt (pyRemoveAll pre d) with
      | some num => max highest num
      | none => highest) 0
  highest_num + 1

/-- Python `d[key] = v` on the association-list model of a dict with
distinct keys: replace the value in place if the key is bound, otherwise
append the new binding at the end (CPython insertion-order semantics). -/
def dictSet : List (String × JVal) → String → JVal → List (String × JVal)
  | [], key, v => [(key, v)]
  | (k, w) :: rest, key, v =>
    if k = key then (key, v) :: rest
    else (k, w) :: dictSet rest key v

/-- Python `d.update(upd)`: set each binding of `upd` in order. -/
def dictUpdate (d : List (String × JVal)) : List (String × JVal) → List (String × JVal)
  | [] => d
  | (k, v) :: rest => dictUpdate (dictSet d k v) rest

/-- The in-memory transformation applied by `update_metadata`
(`job_launcher.py` lines 46-49): insert an empty `"job_information"`
section if absent, then merge `job_details` into that section with
`dict.update`.  If the existing `"job_information"` value is not a dict,
`.update` raises `AttributeError` (modelled as a `typeError`). -/
def updateMetadataDict (metadata job_details : List (String × JVal)) :
    Except PyError (List (String × JVal)) :=
  let m := if (lookup metadata "job_information").isSome then metadata
           else metadata ++ [("job_information", .jdict [])]
  match lookup m "job_information" with
  | some (.jdict ji) => .ok (dictSet m "job_information" (.jdict (dictUpdate ji job_details)))
  | _ => .error (.typeError "update")

/-- The state of the metadata file at `metadata_file_path`: absent,
present but not a valid JSON object, or a valid JSON object. -/
inductive FileState where
  | missing
  | malformed
  | valid (metadata : List (String × JVal))

/-- `update_metadata` (`job_launcher.py` lines 30-53) as a transition on
the metadata file's state, returning the new state and the exception
raised, if any: `open(path, "r")` raises `FileNotFoundError` on a missing
file and `json.load` raises `JSONDecodeError` on malformed contents — in
both cases before any write, leaving the file untouched; otherwise the
merged record is written back in full. -/
def update_metadata : FileState → List (String × JVal) → FileState × Option PyError
  | .missing, _ => (.missing, some .fileNotFoundError)
  | .malformed, _ => (.malformed, some .jsonDecodeError)
  | .valid metadata, job_details =>
    match updateMetadataDict metadata job_details with
    | .ok merged => (.valid merged, none)
    | .error e => (.valid metadata, some e)

/-- The metadata document built by `generate_metadata_file`
(`job_prepper.py` lines 135-154).  `creation_date` and `github_version`
abstract the ambient date and git revision; `description` is the value of
`other_params["description"]`; the three parameter sections are the input
dicts, verbatim. -/
def generate_metadata_doc (creation_date github_version : String) (description : JVal)
    (slurm_params simulation_params array_params : List (String × JVal)) :
    List (String × JVal) :=
  [("general_metadata", .jdict [
      ("author", .jstr "Julien Drapeau"),
      ("creation_date", .jstr creation_date),
      ("description", description),
      ("github_version", .jstr github_version)]),
   ("job_information", .jdict [
      ("job_id", .jnull),
      ("state", .jnull),
      ("start_time", .jnull),
      ("end_time", .jnull),
      ("elapsed_time", .jnull)]),
   ("slurm_parameters", .jdict slurm_params),
   ("simulation_parameters", .jdict simulation_params),
   ("array_parameters", .jdict array_params)]

/-- Python `s.split()`: split on runs of whitespace, discarding empty
tokens (accumulator holds the current token reversed). -/
def splitWsAux : List Char → List Char → List (List Char)
  | [], [] => []
  | [], acc => [acc.reverse]
  | c :: cs, acc =>
    if isPySpace c then
      if acc.isEmpty then splitWsAux cs [] else acc.reverse :: splitWsAux cs []
    else splitWsAux cs (c :: acc)

/-- Python `s.split()` on strings. -/
def pySplitWs (s : String) : List String :=
  (splitWsAux s.data []).map String.mk

/-- `submit_job` (`job_launcher.py` lines 7-27) as a function of the
outcome of `subprocess.run(["sbatch", script])` — its exit code and
captured stdout — and of the metadata file's state.  The source never
reads `result.returncode` (no `check=True`), so `returncode` is unused:
the job id is `result.stdout.strip().split()[-1]`, the final
whitespace-delimited token; when stdout has no token, `[-1]` raises
`IndexError` before `update_metadata` is called. -/
def submit_job (returncode : ℤ) (stdout : String) (metadata_file : FileState) :
    FileState × Option PyError :=
  let job_id_str := pyStrip stdout
  match (pySplitWs job_id_str).getLast? with
  | none => (metadata_file, some .indexError)
  | some job_id => update_metadata metadata_file [("job_id", .jstr job_id)]

/-- The externally visible write effects of a preparation run
(`job_prepper.py` `__main__`), in the order they happen. -/
inductive PrepEffect where
  | wroteArrayParams (combos : List (List (String × JVal)))
  | createdRunDir (name : String)
  | wroteScript (dir : String)
  | wroteMetadata (dir : String)

/-- The slurm keys read by `generate_slurm_script` (lines 188-194), in
the order the f-string evaluates them. -/
def slurmScriptKeys : List String :=
  ["partition", "account", "array", "time", "job_name", "cpus_per_task", "mem_per_cpu"]

/-- First key of `keys` missing from the dict `d`, if any. -/
def firstMissingKey (d : List (String × JVal)) : List String → Option String
  | [] => none
  | k :: ks => if (lookup d k).isSome then firstMissingKey d ks else some k

/-- The `__main__` flow of `job_prepper.py` (lines 288-316) after the
four parameter files have been loaded, as a function of their contents
and of the names of the existing subdirectories of the output directory.
Returns the write effects performed, in order, and the exception that
aborted the run, if any.  Steps, in source order: the
`output_directory` equality check (line 289, `KeyError` if either dict
lacks the key, `ValueError` if the values differ), `add_array_parameters`
(evaluated before `dump_json` writes `array_params.json`),
`create_directory_structure`, `generate_slurm_script` (raises `KeyError`
at its first missing slurm key), and `generate_metadata_file` (raises
`KeyError` if `other_params` lacks `"description"`). -/
def prepMain (range_array_params simul_params slurm_params other_params : List (String × JVal))
    (existing_dirs : List String) : List PrepEffect × Option PyError :=
  match lookup slurm_params "output_directory" with
  | none => ([], some (.keyError "output_directory"))
  | some slurm_out =>
    match lookup simul_params "output_directory" with
    | none => ([], some (.keyError "output_directory"))
    | some simul_out =>
      if jvalEq slurm_out simul_out then
        match add_array_parameters range_array_params with
        | .error e => ([], some e)
        | .ok combos =>
          let run_name := "run_" ++ toString (nextRunNumber "run_" existing_dirs)
          match firstMissingKey slurm_params slurmScriptKeys with
          | some k =>
            ([.wroteArrayParams combos, .createdRunDir run_name], some (.keyError k))
          | none =>
            match lookup other_params "description" with
            | none =>
              ([.wroteArrayParams combos, .createdRunDir run_name, .wroteScript run_name],
               some (.keyError "description"))
            | some _ =>
              ([.wroteArrayParams combos, .createdRunDir run_name, .wroteScript run_name,
                .wroteMetadata run_name], none)
      else ([], some (.valueError "Output directories are different."))

/-- The run-directory suffix as prescribed by the words of the claim about
`create_directory_structure`: one greater than the maximum numeric suffix
among children starting with the prefix — the suffix being the part of the
name after the prefix — skipping suffixes that do not parse, and `1` when
no numeric-suffixed child exists.  (Stated for comparison with the code's
`nextRunNumber`; the code strips every occurrence of the prefix, not just
the leading one, and clamps the maximum at `0`.) -/
def claimedNextRunNumber (pre : String) (entries : List String) : ℤ :=
  match ((entries.filter (fun d => startswith pre d)).filterMap
      (fun d => pyInt (String.mk (d.data.drop pre.data.length)))).max? with
  | some m => m + 1
  | none => 1

/-- The claim about `create_directory_structure`, amended to what the code
computes: the suffix is the name with every occurrence of the prefix
removed (`str.replace`), and the maximum is additionally clamped at `0`
(the fold starts from `highest_num = 0`). -/
def claimedNextRunNumberAmended (pre : String) (entries : List String) : ℤ :=
  match ((entries.filter (fun d => startswith pre d)).filterMap
      (fun d => pyInt (pyRemoveAll pre d))).max? with
  | some m => max m 0 + 1
  | none => 1

/-- The combination at position `i` of the lexicographic product order
over `param_ranges` (first parameter varying slowest): the mixed-radix
decomposition of `i`, digit `j` selecting the value of parameter `j`. -/
def selectCombo : List (List JVal) → ℕ → List JVal
  | [], _ => []
  | l :: ls, i =>
    l.getD (i / (ls.map List.length).prod) .jnull ::
      selectCombo ls (i % (ls.map List.length).prod)

/-! ### Association-list lemmas for Python dict assignment and update -/

theorem lookup_dictSet_self (d : List (String × JVal)) (key : String) (v : JVal) :
    lookup (dictSet d key v) key = some v := by
  induction d with
  | nil => simp [dictSet, lookup]
  | cons p rest ih =>
    obtain ⟨k, w⟩ := p
    by_cases h : k = key
    · simp [dictSet, h, lookup]
    · simp [dictSet, h, lookup, ih]

theorem lookup_dictSet_ne (d : List (String × JVal)) (key k : String) (v : JVal)
    (h : k ≠ key) : lookup (dictSet d key v) k = lookup d k := by
  induction d with
  | nil => simp [dictSet, lookup, Ne.symm h]
  | cons p rest ih =>
    obtain ⟨k1, w⟩ := p
    by_cases h1 : k1 = key
    · subst h1
      simp [dictSet, lookup, Ne.symm h]
    · by_cases h2 : k1 = k
      · subst h2
        simp [dictSet, h1, lookup]
      · simp [dictSet, h1, lookup, h2, ih]

theorem lookup_dictUpdate_notin (u : List (String × JVal)) (d : List (String × JVal))
    (k : String) (h : ∀ p ∈ u, p.1 ≠ k) :
    lookup (dictUpdate d u) k = lookup d k := by
  induction u generalizing d with
  | nil => rfl
  | cons p rest ih =>
    obtain ⟨k1, v1⟩ := p
    show lookup (dictUpdate (dictSet d k1 v1) rest) k = lookup d k
    rw [ih (dictSet d k1 v1) (fun q hq => h q (List.mem_cons_of_mem _ hq))]
    exact lookup_dictSet_ne d k1 k v1 (Ne.symm (h (k1, v1) (List.mem_cons_self _ _)))

theorem lookup_dictUpdate_mem (u : List (String × JVal)) (d : List (String × JVal))
    (k : String) (v : JVal) (hu : (u.map Prod.fst).Nodup) (h : (k, v) ∈ u) :
    lookup (dictUpdate d u) k = some v := by
  induction u generalizing d with
  | nil => exact absurd h (List.not_mem_nil _)
  | cons p rest ih =>
    obtain ⟨k1, v1⟩ := p
    simp only [List.map_cons, List.nodup_cons] at hu
    rcases List.mem_cons.mp h with heq | hmem
    · injection heq with h1 h2
      subst h1
      subst h2
      show lookup (dictUpdate (dictSet d k v) rest) k = some v
      have hnot : ∀ q ∈ rest, q.1 ≠ k := by
        intro q hq hk
        exact hu.1 (hk ▸ List.mem_map_of_mem Prod.fst hq)
      rw [lookup_dictUpdate_notin rest (dictSet d k v) k hnot]
      exact lookup_dictSet_self d k v
    · show lookup (dictUpdate (dictSet d k1 v1) rest) k = some v
      exact ih (dictSet d k1 v1) hu.2 hmem

theorem lookup_append_ne (d : List (String × JVal)) (key k : String) (v : JVal)
    (h : k ≠ key) : lookup (d ++ [(key, v)]) k = lookup d k := by
  induction d with
  | nil => simp [lookup, Ne.symm h]
  | cons p rest ih =>
    obtain ⟨k1, w⟩ := p
    by_cases h1 : k1 = k
    · simp [lookup, h1]
    · simp [lookup, h1, ih]

theorem lookup_append_self_of_none (d : List (String × JVal)) (key : String) (v : JVal)
    (h : lookup d key = none) : lookup (d ++ [(key, v)]) key = some v := by
  induction d with
  | nil => simp [lookup]
  | cons p rest ih =>
    obtain ⟨k1, w⟩ := p
    by_cases h1 : k1 = key
    · simp [lookup, h1] at h
    · simp [lookup, h1] at h ⊢
      exact ih h

theorem npArange_zero_five_one : npArange 0 5 1 = [0, 1, 2, 3, 4] := by
  have h : arangeLen 0 5 1 = 5 := by unfold arangeLen; norm_num; rfl
  unfold npArange
  rw [h]
  simp [List.range_succ]

theorem npArange_zero_one_half : npArange 0 1 (1/2) = [0, 1/2] := by
  have h : arangeLen 0 1 (1/2) = 2 := by unfold arangeLen; norm_num; rfl
  unfold npArange
  rw [h]
  simp [List.range_succ]

/-! ### Claims -/

/-- C9: every Metadata Record freshly created by `generate_metadata_file` has
all of the `job_information` fields (`job_id`, `state`, `start_time`,
`end_time`, `elapsed_time`) equal to null, all declared top-level sections
present (`general_metadata`, `job_information`, `slurm_parameters`,
`simulation_parameters`, `array_parameters`), and the scheduler, simulation
and array parameter sections are verbatim copies of their inputs. -/
theorem C9_generate_metadata_fresh (creation_date github_version : String)
    (description : JVal)
    (slurm_params simulation_params array_params : List (String × JVal)) :
    lookup (generate_metadata_doc creation_date github_version description
        slurm_params simulation_params array_params) "job_information" =
      some (.jdict [("job_id", .jnull), ("state", .jnull), ("start_time", .jnull),
        ("end_time", .jnull), ("elapsed_time", .jnull)]) ∧
    (lookup (generate_metadata_doc creation_date github_version description
        slurm_params simulation_params array_params) "general_metadata").isSome = true ∧
    lookup (generate_metadata_doc creation_date github_version description
        slurm_params simulation_params array_params) "slurm_parameters" =
      some (.jdict slurm_params) ∧
    lookup (generate_metadata_doc creation_date github_version description
        slurm_params simulation_params array_params) "simulation_parameters" =
      some (.jdict simulation_params) ∧
    lookup (generate_metadata_doc creation_date github_version description
        slurm_params simulation_params array_params) "array_parameters" =
      some (.jdict array_params) := by
  refine ⟨?_, ?_, ?_, ?_, ?_⟩ <;> simp [generate_metadata_doc, lookup]

/-- C4: for every existing Metadata Record and partial job-information
mapping, `update_metadata` merges the mapping into the `job_information`
section only (creating that section if absent), preserving every pre-existing
`job_information` key not present in the mapping and leaving every other
top-level section unchanged; in particular applying `{job_id: "12345"}` when
`job_information` already contains `state: "PENDING"` keeps both. -/
theorem C4_update_metadata_partial_merge :
    (∀ metadata ji job_details,
      lookup metadata "job_information" = some (.jdict ji) →
      (update_metadata (.valid metadata) job_details).2 = none ∧
      ∃ merged, (update_metadata (.valid metadata) job_details).1 = .valid merged ∧
        (∀ k, k ≠ "job_information" → lookup merged k = lookup metadata k) ∧
        ∃ ji2, lookup merged "job_information" = some (.jdict ji2) ∧
          (∀ k w, lookup ji k = some w → (∀ p ∈ job_details, p.1 ≠ k) →
            lookup ji2 k = some w) ∧
          ((job_details.map Prod.fst).Nodup →
            ∀ k v, (k, v) ∈ job_details → lookup ji2 k = some v)) ∧
    (∀ metadata job_details,
      lookup metadata "job_information" = none →
      (update_metadata (.valid metadata) job_details).2 = none ∧
      ∃ merged, (update_metadata (.valid metadata) job_details).1 = .valid merged ∧
        (∀ k, k ≠ "job_information" → lookup merged k = lookup metadata k) ∧
        ∃ ji2, lookup merged "job_information" = some (.jdict ji2) ∧
          ((job_details.map Prod.fst).Nodup →
            ∀ k v, (k, v) ∈ job_details → lookup ji2 k = some v)) := by
  constructor
  · intro metadata ji job_details h
    have hm : updateMetadataDict metadata job_details =
        .ok (dictSet metadata "job_information" (.jdict (dictUpdate ji job_details))) := by
      unfold updateMetadataDict
      simp only [h, Option.isSome_some, if_true]
    have hu : update_metadata (.valid metadata) job_details =
        (.valid (dictSet metadata "job_information" (.jdict (dictUpdate ji job_details))), none) := by
      simp only [update_metadata]
      rw [hm]
    rw [hu]
    refine ⟨rfl, _, rfl, ?_, dictUpdate ji job_details, ?_, ?_, ?_⟩
    · intro k hk
      exact lookup_dictSet_ne metadata "job_information" k _ hk
    · exact lookup_dictSet_self metadata "job_information" _
    · intro k w hw hnot
      rw [lookup_dictUpdate_notin job_details ji k hnot]
      exact hw
    · intro hnodup k v hmem
      exact lookup_dictUpdate_mem job_details ji k v hnodup hmem
  · intro metadata job_details h
    have hsec : lookup (metadata ++ [("job_information", JVal.jdict [])]) "job_information" =
        some (.jdict []) :=
      lookup_append_self_of_none metadata "job_information" _ h
    have hm : updateMetadataDict metadata job_details =
        .ok (dictSet (metadata ++ [("job_information", JVal.jdict [])]) "job_information"
          (.jdict (dictUpdate [] job_details))) := by
      unfold updateMetadataDict
      simp only [h, Option.isSome_none, if_false, Bool.false_eq_true, hsec]
    have hu : update_metadata (.valid metadata) job_details =
        (.valid (dictSet (metadata ++ [("job_information", JVal.jdict [])]) "job_information"
          (.jdict (dictUpdate [] job_details))), none) := by
      simp only [update_metadata]
      rw [hm]
    rw [hu]
    refine ⟨rfl, _, rfl, ?_, dictUpdate [] job_details, ?_, ?_⟩
    · intro k hk
      rw [lookup_dictSet_ne _ "job_information" k _ hk]
      exact lookup_append_ne metadata "job_information" k _ hk
    · exact lookup_dictSet_self _ "job_information" _
    · intro hnodup k v hmem
      exact lookup_dictUpdate_mem job_details [] k v hnodup hmem

/-- Witness for C4: the claim's own example, `{job_id: "12345"}` applied to a
record whose `job_information` is `{state: "PENDING"}`. -/
theorem C4_update_metadata_partial_merge_witness :
    (update_metadata (.valid [("job_information", JVal.jdict [("state", JVal.jstr "PENDING")])])
        [("job_id", JVal.jstr "12345")]).2 = none ∧
    ∃ merged,
      (update_metadata (.valid [("job_information", JVal.jdict [("state", JVal.jstr "PENDING")])])
        [("job_id", JVal.jstr "12345")]).1 = .valid merged ∧
      (∀ k, k ≠ "job_information" →
        lookup merged k =
          lookup [("job_information", JVal.jdict [("state", JVal.jstr "PENDING")])] k) ∧
      ∃ ji2, lookup merged "job_information" = some (.jdict ji2) ∧
        (∀ k w, lookup [("state", JVal.jstr "PENDING")] k = some w →
          (∀ p ∈ [("job_id", JVal.jstr "12345")], p.1 ≠ k) → lookup ji2 k = some w) ∧
        ((([("job_id", JVal.jstr "12345")] : List (String × JVal)).map Prod.fst).Nodup →
          ∀ k v, (k, v) ∈ [("job_id", JVal.jstr "12345")] → lookup ji2 k = some v) :=
  C4_update_metadata_partial_merge.1
    [("job_information", JVal.jdict [("state", JVal.jstr "PENDING")])]
    [("state", JVal.jstr "PENDING")] [("job_id", JVal.jstr "12345")] (by rfl)

/-- C8: `update_metadata` fails with an error when the metadata file is
missing or malformed, and on any failure the stored record is left unchanged:
the operation writes the record to completion or not at all. -/
theorem C8_update_metadata_error_leaves_record :
    (∀ job_details, update_metadata .missing job_details =
      (.missing, some .fileNotFoundError)) ∧
    (∀ job_details, update_metadata .malformed job_details =
      (.malformed, some .jsonDecodeError)) ∧
    (∀ st job_details e, (update_metadata st job_details).2 = some e →
      (update_metadata st job_details).1 = st) := by
  refine ⟨fun _ => rfl, fun _ => rfl, ?_⟩
  intro st job_details e herr
  match st with
  | .missing => rfl
  | .malformed => rfl
  | .valid metadata =>
    simp only [update_metadata] at herr ⊢
    match hm : updateMetadataDict metadata job_details with
    | .ok merged => rw [hm] at herr; exact absurd herr (by simp)
    | .error e2 => rfl

/-- Witness for C8: a missing metadata file makes `update_metadata` fail and
leaves the (absent) record as it was. -/
theorem C8_update_metadata_error_leaves_record_witness :
    (update_metadata .missing [("job_id", JVal.jstr "12345")]).1 = .missing :=
  C8_update_metadata_error_leaves_record.2.2 .missing [("job_id", JVal.jstr "12345")]
    .fileNotFoundError (by rfl)

/-! ### Half-open bounds of numpy.arange -/

theorem npArange_mem :
    ∀ start stop step : ℚ, 0 < step →
      ∀ x ∈ npArange start stop step, start ≤ x ∧ x < stop := by
  intro start stop step hstep x hx
  unfold npArange at hx
  rcases List.mem_map.mp hx with ⟨i, hi, rfl⟩
  rw [List.mem_range] at hi
  unfold arangeLen at hi
  refine ⟨?_, ?_⟩
  · have h0 : (0:ℚ) ≤ (i:ℚ) * step := mul_nonneg (Nat.cast_nonneg i) hstep.le
    linarith
  · have h1 : (i : ℤ) < ⌈(stop - start) / step⌉ := Int.lt_toNat.mp hi
    have h2 : (i : ℚ) < (stop - start) / step := by
      have h3 := Int.lt_ceil.mp h1
      exact_mod_cast h3
    have h4 : (i : ℚ) * step < stop - start := (lt_div_iff₀ hstep).mp h2
    linarith

/-- C2: a `{start, end, step}` range descriptor resolves to the sequence
starting at `start`, incrementing by `step`, and stopping strictly before
`end` (half-open); `{start:0, end:5, step:1}` expands to `[0,1,2,3,4]` and
`{start:0, end:1, step:0.5}` to `[0, 0.5]`; an explicit list value is used
as-is, unmodified. -/
theorem C2_range_descriptor_semantics :
    (∀ xs, expandValue (.jlist xs) = .ok xs) ∧
    expandValue (.jdict [("start", .jnum 0), ("end", .jnum 5), ("step", .jnum 1)]) =
      .ok [.jnum 0, .jnum 1, .jnum 2, .jnum 3, .jnum 4] ∧
    expandValue (.jdict [("start", .jnum 0), ("end", .jnum 1), ("step", .jnum (1/2))]) =
      .ok [.jnum 0, .jnum (1/2)] ∧
    (∀ start stop step : ℚ, 0 < step →
      ∀ x ∈ npArange start stop step, start ≤ x ∧ x < stop) := by
  refine ⟨fun xs => rfl, ?_, ?_, npArange_mem⟩
  · have h : expandValue (.jdict [("start", .jnum 0), ("end", .jnum 5), ("step", .jnum 1)]) =
        .ok ((npArange 0 5 1).map .jnum) := rfl
    rw [h, npArange_zero_five_one]
    rfl
  · have hne : ((1:ℚ)/2) ≠ 0 := by norm_num
    have h : expandValue (.jdict [("start", .jnum 0), ("end", .jnum 1), ("step", .jnum (1/2))]) =
        .ok ((npArange 0 1 (1/2)).map .jnum) := by
      show (if (1/2 : ℚ) = 0 then Except.error PyError.zeroDivisionError
            else Except.ok ((npArange 0 1 (1/2)).map JVal.jnum)) =
          Except.ok ((npArange 0 1 (1/2)).map JVal.jnum)
      rw [if_neg hne]
    rw [h, npArange_zero_one_half]
    rfl

/-- Witness for C2: `2` is produced by the `{start:0, end:5, step:1}` range
and lies in the half-open interval `[0, 5)`. -/
theorem C2_range_descriptor_semantics_witness : (0:ℚ) ≤ 2 ∧ (2:ℚ) < 5 :=
  C2_range_descriptor_semantics.2.2.2 0 5 1 (by norm_num) 2
    (by rw [npArange_zero_five_one]; norm_num)

/-! ### Shape analysis of expandValue -/

theorem expandValue_not_list_dict (v : JVal) (h1 : v.isList = false)
    (h2 : v.isDict = false) :
    expandValue v = .error (.valueError "Invalid range type") := by
  cases v
  case jlist xs => simp [JVal.isList] at h1
  case jdict d => simp [JVal.isDict] at h2
  all_goals rfl

theorem expandValue_jdict_ne_valueError (d : List (String × JVal)) (msg : String) :
    expandValue (.jdict d) ≠ .error (.valueError msg) := by
  intro h
  simp only [expandValue] at h
  split at h
  all_goals try split at h
  all_goals try split at h
  all_goals try split at h
  all_goals try split at h
  all_goals simp at h

/-- C10: a parameter whose value is a mapping lacking any of the keys
`start`, `end`, `step` makes the Parameter Expander fail with a key-lookup
error (for the first missing key in evaluation order), not the declared
shape-validation error `Invalid range type`; the shape-validation error is
raised exactly for values that are neither lists nor mappings. -/
theorem C10_missing_range_keys_keyerror :
    (∀ d : List (String × JVal),
      (lookup d "start" = none ∨ lookup d "end" = none ∨ lookup d "step" = none) →
      expandValue (.jdict d) = .error (.keyError "start") ∨
      expandValue (.jdict d) = .error (.keyError "end") ∨
      expandValue (.jdict d) = .error (.keyError "step")) ∧
    (∀ msg (v : JVal), expandValue v = .error (.valueError msg) →
      v.isList = false ∧ v.isDict = false) ∧
    (∀ v : JVal, v.isList = false → v.isDict = false →
      expandValue v = .error (.valueError "Invalid range type")) := by
  refine ⟨?_, ?_, expandValue_not_list_dict⟩
  · intro d hd
    rcases hs : lookup d "start" with _ | vs
    · exact Or.inl (by simp [expandValue, hs])
    rcases he : lookup d "end" with _ | ve
    · exact Or.inr (Or.inl (by simp [expandValue, hs, he]))
    rcases ht : lookup d "step" with _ | vt
    · exact Or.inr (Or.inr (by simp [expandValue, hs, he, ht]))
    rcases hd with h | h | h
    · rw [h] at hs; cases hs
    · rw [h] at he; cases he
    · rw [h] at ht; cases ht
  · intro msg v h
    cases v
    case jlist xs => cases h
    case jdict d => exact absurd h (expandValue_jdict_ne_valueError d msg)
    all_goals exact ⟨rfl, rfl⟩

/-- Witness for C10: a mapping with only a `begin` key fails with a
key-lookup error on one of `start`, `end`, `step`. -/
theorem C10_missing_range_keys_keyerror_witness :
    expandValue (.jdict [("begin", JVal.jnull)]) = .error (.keyError "start") ∨
    expandValue (.jdict [("begin", JVal.jnull)]) = .error (.keyError "end") ∨
    expandValue (.jdict [("begin", JVal.jnull)]) = .error (.keyError "step") :=
  C10_missing_range_keys_keyerror.1 [("begin", JVal.jnull)] (Or.inl rfl)

/-- C7: when `slurm_params.output_directory` differs from
`simul_params.output_directory`, preparation fails with the validation
error and performs no write effect at all — no directory is created and
the expanded combination list `array_params.json` is not written. -/
theorem C7_mismatched_output_dirs_abort
    (range_array_params simul_params slurm_params other_params : List (String × JVal))
    (existing_dirs : List String) (slurm_out simul_out : JVal)
    (h1 : lookup slurm_params "output_directory" = some slurm_out)
    (h2 : lookup simul_params "output_directory" = some simul_out)
    (h3 : jvalEq slurm_out simul_out = false) :
    prepMain range_array_params simul_params slurm_params other_params existing_dirs =
      ([], some (.valueError "Output directories are different.")) := by
  simp [prepMain, h1, h2, h3]

/-- Witness for C7: output directories `"a"` versus `"b"`. -/
theorem C7_mismatched_output_dirs_abort_witness :
    prepMain [] [("output_directory", JVal.jstr "b")] [("output_directory", JVal.jstr "a")] [] [] =
      ([], some (.valueError "Output directories are different.")) :=
  C7_mismatched_output_dirs_abort [] [("output_directory", JVal.jstr "b")]
    [("output_directory", JVal.jstr "a")] [] [] (JVal.jstr "a") (JVal.jstr "b") rfl rfl (by rfl)

/-! ### Propagation of expansion errors -/

theorem expandRanges_append_error (spec1 : List (String × JVal)) (rs : List (List JVal))
    (h : expandRanges spec1 = .ok rs) (p : String × JVal) (spec2 : List (String × JVal))
    (e : PyError) (hp : expandValue p.2 = .error e) :
    expandRanges (spec1 ++ p :: spec2) = .error e := by
  induction spec1 generalizing rs with
  | nil =>
    simp only [List.nil_append, expandRanges, hp]
  | cons q rest ih =>
    simp only [expandRanges] at h
    rcases hq : expandValue q.2 with e2 | r <;> rw [hq] at h
    · exact absurd h (by simp)
    rcases hr : expandRanges rest with e2 | rs2 <;> rw [hr] at h
    · exact absurd h (by simp)
    show expandRanges (q :: (rest ++ p :: spec2)) = .error e
    simp only [expandRanges, hq, ih rs2 hr]

theorem prepMain_no_effects_of_expansion_error
    (range_array_params simul_params slurm_params other_params : List (String × JVal))
    (existing_dirs : List String) (e : PyError)
    (h : add_array_parameters range_array_params = .error e) :
    (prepMain range_array_params simul_params slurm_params other_params existing_dirs).1
      = [] := by
  unfold prepMain
  rcases lookup slurm_params "output_directory" with _ | slurm_out
  · rfl
  rcases lookup simul_params "output_directory" with _ | simul_out
  · rfl
  by_cases heq : jvalEq slurm_out simul_out
  · simp only [heq, if_true, h]
  · simp only [heq, if_false, Bool.false_eq_true]

/-- C6 (counterexample to the claim as stated): the value
`{"begin": 0}` of parameter `a` is neither a list nor a
`{start, end, step}` object, yet the Parameter Expander fails with a
`KeyError` on `start`, which is not the declared shape-validation
`ValueError`. -/
theorem C6_invalid_shape_counterexample :
    add_array_parameters [("a", JVal.jdict [("begin", JVal.jnum 0)])] =
      .error (.keyError "start") ∧
    ∀ msg, PyError.keyError "start" ≠ PyError.valueError msg :=
  ⟨rfl, fun _ h => PyError.noConfusion h⟩

/-- C6 (amended): a parameter value that is neither a list nor a mapping
makes the Parameter Expander fail with the validation error
`Invalid range type`, provided the parameters declared before it expand
successfully (a mapping missing one of `start`/`end`/`step` raises a
key-lookup error instead); and whenever expansion fails — with any
error — the preparation run performs no write effect at all: zero Run
Directories and zero scripts, since expansion is attempted before any
directory is created. -/
theorem C6_invalid_shape_validation_error :
    (∀ (spec1 : List (String × JVal)) (rs : List (List JVal)) (name : String)
        (v : JVal) (spec2 : List (String × JVal)),
      expandRanges spec1 = .ok rs → v.isList = false → v.isDict = false →
      add_array_parameters (spec1 ++ (name, v) :: spec2) =
        .error (.valueError "Invalid range type")) ∧
    (∀ range_array_params simul_params slurm_params other_params existing_dirs e,
      add_array_parameters range_array_params = .error e →
      (prepMain range_array_params simul_params slurm_params other_params
        existing_dirs).1 = []) := by
  constructor
  · intro spec1 rs name v spec2 h h1 h2
    have hv : expandValue (name, v).2 = .error (.valueError "Invalid range type") :=
      expandValue_not_list_dict v h1 h2
    have hr := expandRanges_append_error spec1 rs h (name, v) spec2 _ hv
    simp only [add_array_parameters, hr]
  · exact prepMain_no_effects_of_expansion_error
  
/-- Witness for C6: the string-valued parameter of the claim's example, and
the resulting absence of write effects in a full preparation run. -/
theorem C6_invalid_shape_validation_error_witness :
    add_array_parameters ([] ++ ("a", JVal.jstr "oops") :: []) =
      .error (.valueError "Invalid range type") ∧
    (prepMain [("a", JVal.jstr "oops")] [("output_directory", JVal.jstr "out")]
      [("output_directory", JVal.jstr "out")] [] []).1 = [] :=
  ⟨C6_invalid_shape_validation_error.1 [] [] "a" (JVal.jstr "oops") [] rfl rfl rfl,
   C6_invalid_shape_validation_error.2 [("a", JVal.jstr "oops")]
     [("output_directory", JVal.jstr "out")] [("output_directory", JVal.jstr "out")] [] []
     (.valueError "Invalid range type") rfl⟩

/-- C5 (counterexample to the claim as stated): with an abnormal exit
(return code `1`) whose captured stdout is `"error"`, `submit_job` still
extracts `"error"` as the final whitespace-delimited token and updates the
metadata record with it — the claim says no metadata update is attempted
when the submission command exits abnormally. -/
theorem C5_submit_job_counterexample :
    submit_job 1 "error" (.valid [("job_information", JVal.jdict [])]) =
      (.valid [("job_information", JVal.jdict [("job_id", JVal.jstr "error")])], none) ∧
    (1 : ℤ) ≠ 0 ∧
    FileState.valid [("job_information", JVal.jdict [("job_id", JVal.jstr "error")])] ≠
      FileState.valid [("job_information", JVal.jdict [])] := by
  refine ⟨rfl, by norm_num, ?_⟩
  intro h
  injection h with h2
  simp at h2

/-- C5 (amended): `submit_job` extracts the job identifier as the final
whitespace-delimited token of the submission command's stdout and invokes
the metadata update with `{job_id: <identifier>}`; when the stripped
output contains no token, it fails with an `IndexError` before any
metadata update is attempted, leaving the record unchanged; the command's
exit status is never examined, so an abnormally exiting command whose
stdout still contains a token does get that token recorded. -/
theorem C5_submit_job_last_token :
    (∀ returncode rc2 stdout st, submit_job returncode stdout st = submit_job rc2 stdout st) ∧
    (∀ returncode stdout st,
      (pySplitWs (pyStrip stdout)).getLast? = none →
      submit_job returncode stdout st = (st, some .indexError)) ∧
    (∀ returncode stdout jid metadata ji,
      (pySplitWs (pyStrip stdout)).getLast? = some jid →
      lookup metadata "job_information" = some (.jdict ji) →
      ∃ merged, submit_job returncode stdout (.valid metadata) = (.valid merged, none) ∧
        (∀ k, k ≠ "job_information" → lookup merged k = lookup metadata k) ∧
        ∃ ji2, lookup merged "job_information" = some (.jdict ji2) ∧
          lookup ji2 "job_id" = some (.jstr jid)) := by
  refine ⟨fun _ _ _ _ => rfl, ?_, ?_⟩
  · intro returncode stdout st h
    simp only [submit_job, h]
  · intro returncode stdout jid metadata ji h hji
    have hm : updateMetadataDict metadata [("job_id", .jstr jid)] =
        .ok (dictSet metadata "job_information"
          (.jdict (dictUpdate ji [("job_id", .jstr jid)]))) := by
      unfold updateMetadataDict
      simp only [hji, Option.isSome_some, if_true]
    have hs : submit_job returncode stdout (.valid metadata) =
        (.valid (dictSet metadata "job_information"
          (.jdict (dictUpdate ji [("job_id", .jstr jid)]))), none) := by
      simp only [submit_job, h, update_metadata, hm]
    rw [hs]
    refine ⟨_, rfl, ?_, dictUpdate ji [("job_id", .jstr jid)], ?_, ?_⟩
    · intro k hk
      exact lookup_dictSet_ne metadata "job_information" k _ hk
    · exact lookup_dictSet_self metadata "job_information" _
    · exact lookup_dictUpdate_mem [("job_id", .jstr jid)] ji "job_id" (.jstr jid)
        (by simp) (by simp)

/-- Witness for C5: a normal submission whose stdout is
`"Submitted batch job 12345"` records job id `"12345"`. -/
theorem C5_submit_job_last_token_witness :
    ∃ merged, submit_job 0 "Submitted batch job 12345"
        (.valid [("job_information", JVal.jdict [])]) = (.valid merged, none) ∧
      (∀ k, k ≠ "job_information" →
        lookup merged k = lookup [("job_information", JVal.jdict [])] k) ∧
      ∃ ji2, lookup merged "job_information" = some (.jdict ji2) ∧
        lookup ji2 "job_id" = some (.jstr "12345") :=
  C5_submit_job_last_token.2.2 0 "Submitted batch job 12345" "12345"
    [("job_information", JVal.jdict [])] [] rfl rfl

/-! ### The running maximum of create_directory_structure -/

theorem foldl_skip_eq_filterMap {α : Type} (f : α → Option ℤ) (L : List α) (a : ℤ) :
    L.foldl (fun highest d =>
      match f d with | some num => max highest num | none => highest) a
      = (L.filterMap f).foldl max a := by
  induction L generalizing a with
  | nil => rfl
  | cons x xs ih =>
    simp only [List.foldl_cons, List.filterMap_cons]
    rcases hx : f x with _ | n
    · exact ih a
    · exact ih (max a n)

theorem foldl_max_comm (t : List ℤ) : ∀ a b : ℤ, t.foldl max (max a b) = max a (t.foldl max b) := by
  induction t with
  | nil => intro a b; rfl
  | cons c t ih =>
    intro a b
    simp only [List.foldl_cons]
    rw [max_assoc]
    exact ih a (max b c)

theorem foldl_max_eq_maxQuestion (L : List ℤ) (a : ℤ) :
    L.foldl max a = match L.max? with | some m => max a m | none => a := by
  cases L with
  | nil => rfl
  | cons h t =>
    show t.foldl max (max a h) = max a (t.foldl max h)
    exact foldl_max_comm t a h

/-- C3 (counterexample to the claim as stated): with a single child
`run_-3` — which starts with the prefix and whose suffix `-3` parses as an
integer — the claim prescribes suffix `max + 1 = -2`, but the code's
running maximum starts at `0`, so `create_directory_structure` allocates
`run_1`. -/
theorem C3_next_run_number_counterexample :
    claimedNextRunNumber "run_" ["run_-3"] = -2 ∧
    nextRunNumber "run_" ["run_-3"] = 1 := by
  constructor
  · rfl
  · simp [nextRunNumber, startswith, pyRemoveAll, removeOccAux, pyInt, parseUDigits,
      digitsToNat, isPySpace]

/-- C3 (amended): `create_directory_structure` chooses the numeric suffix
`highest + 1` where `highest` is the maximum — clamped below at `0` — of
the values `int(name.replace(prefix, ""))` over children starting with the
prefix (every occurrence of the prefix is removed, not only the leading
one), skipping without error any name whose stripped form does not parse;
in particular existing `run_1`, `run_2`, `run_7a` give `run_3`, and an
empty directory gives `run_1`. -/
theorem C3_next_run_number :
    nextRunNumber "run_" ["run_1", "run_2", "run_7a"] = 3 ∧
    nextRunNumber "run_" [] = 1 ∧
    ∀ pre entries, nextRunNumber pre entries = claimedNextRunNumberAmended pre entries := by
  refine ⟨?_, rfl, ?_⟩
  · simp [nextRunNumber, startswith, pyRemoveAll, removeOccAux, pyInt, parseUDigits,
      digitsToNat, isPySpace]
  · intro pre entries
    simp only [nextRunNumber, claimedNextRunNumberAmended]
    rw [foldl_skip_eq_filterMap, foldl_max_eq_maxQuestion]
    rcases hmx : ((entries.filter fun d => startswith pre d).filterMap
        fun d => pyInt (pyRemoveAll pre d)).max? with _ | m
    · rfl
    · show (max 0 m) + 1 = (max m 0) + 1
      rw [max_comm]

/-! ### Cross-product structure of itertools.product -/

theorem sum_map_const {α : Type} (l : List α) (N : ℕ) :
    (l.map fun _ => N).sum = l.length * N := by
  induction l with
  | nil => simp
  | cons x xs ih =>
    simp only [List.map_cons, List.sum_cons, List.length_cons, ih, Nat.succ_mul]
    omega

theorem itertoolsProduct_length {α : Type} (ls : List (List α)) :
    (itertoolsProduct ls).length = (ls.map List.length).prod := by
  induction ls with
  | nil => rfl
  | cons l ls ih =>
    simp only [itertoolsProduct, List.length_flatMap, Function.comp_def, List.length_map,
      List.map_cons, List.prod_cons]
    rw [sum_map_const, ih]

theorem mem_itertoolsProduct {α : Type} (ls : List (List α)) :
    ∀ c, c ∈ itertoolsProduct ls ↔ List.Forall₂ (fun x l => x ∈ l) c ls := by
  induction ls with
  | nil =>
    intro c
    simp only [itertoolsProduct, List.mem_singleton]
    constructor
    · rintro rfl
      exact List.Forall₂.nil
    · intro h
      cases h
      rfl
  | cons l ls ih =>
    intro c
    simp only [itertoolsProduct, List.mem_flatMap, List.mem_map]
    constructor
    · rintro ⟨x, hx, t, ht, rfl⟩
      exact List.Forall₂.cons hx ((ih t).mp ht)
    · intro h
      cases h with
      | cons hx ht =>
        rename_i x t
        exact ⟨x, hx, t, (ih t).mpr ht, rfl⟩

theorem mem_itertoolsProduct_length {α : Type} (ls : List (List α)) (c : List α)
    (h : c ∈ itertoolsProduct ls) : c.length = ls.length :=
  ((mem_itertoolsProduct ls c).mp h).length_eq

theorem itertoolsProduct_nodup {α : Type} (ls : List (List α))
    (h : ∀ l ∈ ls, l.Nodup) : (itertoolsProduct ls).Nodup := by
  induction ls with
  | nil => simp [itertoolsProduct]
  | cons l ls ih =>
    simp only [itertoolsProduct]
    rw [List.nodup_flatMap]
    constructor
    · intro x hx
      exact List.Nodup.map_on (fun t1 h1 t2 h2 e => by injection e)
        (ih fun q hq => h q (List.mem_cons_of_mem _ hq))
    · have hl : l.Nodup := h l (List.mem_cons_self _ _)
      refine hl.imp ?_
      intro a b hab t ht1 ht2
      rcases List.mem_map.mp ht1 with ⟨t1, _, rfl⟩
      rcases List.mem_map.mp ht2 with ⟨t2, _, he⟩
      injection he with he1 he2
      exact hab he1.symm

theorem zip_inj {α β : Type} (names : List α) :
    ∀ c1 c2 : List β, c1.length = names.length → c2.length = names.length →
      names.zip c1 = names.zip c2 → c1 = c2 := by
  induction names with
  | nil =>
    intro c1 c2 h1 h2 h
    rw [List.length_nil, List.length_eq_zero] at h1 h2
    rw [h1, h2]
  | cons n ns ih =>
    intro c1 c2 h1 h2 h
    cases c1 with
    | nil => simp at h1
    | cons a t1 =>
      cases c2 with
      | nil => simp at h2
      | cons b t2 =>
        simp only [List.zip_cons_cons, List.cons.injEq, Prod.mk.injEq] at h
        obtain ⟨⟨-, rfl⟩, hz⟩ := h
        simp only [List.length_cons, Nat.add_right_cancel_iff] at h1 h2
        rw [ih t1 t2 h1 h2 hz]

theorem expandRanges_length (spec : List (String × JVal)) :
    ∀ rs : List (List JVal), expandRanges spec = .ok rs → rs.length = spec.length := by
  induction spec with
  | nil =>
    intro rs h
    injection h with h1
    rw [← h1]
    rfl
  | cons p rest ih =>
    intro rs h
    simp only [expandRanges] at h
    rcases hp : expandValue p.2 with e | r <;> rw [hp] at h
    · exact absurd h (by simp)
    rcases hr : expandRanges rest with e | rs2 <;> rw [hr] at h
    · exact absurd h (by simp)
    injection h with h1
    rw [← h1]
    simp [ih rs2 hr]

theorem flatMap_getElem?_uniform {α β : Type} (l : List α) (f : α → List β) (N : ℕ)
    (hN : ∀ x, (f x).length = N) :
    ∀ i : ℕ, (l.flatMap f)[i]? = (l[i / N]?).bind fun x => (f x)[i % N]? := by
  induction l with
  | nil =>
    intro i
    simp
  | cons x xs ih =>
    intro i
    simp only [List.flatMap_cons]
    rw [List.getElem?_append]
    by_cases hi : i < (f x).length
    · rw [if_pos hi]
      rw [hN x] at hi
      rw [Nat.div_eq_of_lt hi, Nat.mod_eq_of_lt hi]
      simp
    · rw [if_neg hi]
      rw [hN x] at hi ⊢
      by_cases hN0 : N = 0
      · subst hN0
        have hfx : ∀ y : α, f y = [] := fun y => List.length_eq_zero.mp (hN y)
        have hxs : xs.flatMap f = [] := by
          induction xs with
          | nil => rfl
          | cons a as iha => simp [List.flatMap_cons, hfx, iha]
        rw [hxs]
        simp [hfx, Nat.div_zero, Nat.mod_zero]
      · have hNpos : 0 < N := Nat.pos_of_ne_zero hN0
        have hge : N ≤ i := le_of_not_lt hi
        obtain ⟨j, rfl⟩ : ∃ j, i = j + N := ⟨i - N, (Nat.sub_add_cancel hge).symm⟩
        rw [Nat.add_sub_cancel, ih j, Nat.add_div_right j hNpos, Nat.add_mod_right j N,
          List.getElem?_cons_succ]

theorem itertoolsProduct_getElem? (ls : List (List JVal)) :
    ∀ i : ℕ, i < (itertoolsProduct ls).length →
      (itertoolsProduct ls)[i]? = some (selectCombo ls i) := by
  induction ls with
  | nil =>
    intro i hi
    have h0 : i = 0 := Nat.lt_one_iff.mp hi
    subst h0
    rfl
  | cons l ls ih =>
    intro i hi
    have hN : ∀ x : JVal, ((itertoolsProduct ls).map (fun t => x :: t)).length =
        (itertoolsProduct ls).length := fun x => List.length_map ..
    have hlen : (itertoolsProduct (l :: ls)).length =
        l.length * (itertoolsProduct ls).length := by
      simp only [itertoolsProduct, List.length_flatMap, Function.comp_def, List.length_map]
      exact sum_map_const l _
    have hi2 : i < l.length * (itertoolsProduct ls).length := hlen ▸ hi
    have hNpos : 0 < (itertoolsProduct ls).length := by
      rcases Nat.eq_zero_or_pos (itertoolsProduct ls).length with h0 | h0
      · rw [h0, Nat.mul_zero] at hi2
        exact absurd hi2 (Nat.not_lt_zero i)
      · exact h0
    have hdiv : i / (itertoolsProduct ls).length < l.length :=
      (Nat.div_lt_iff_lt_mul hNpos).mpr hi2
    have hmod : i % (itertoolsProduct ls).length < (itertoolsProduct ls).length :=
      Nat.mod_lt i hNpos
    show (l.flatMap fun x => (itertoolsProduct ls).map (fun t => x :: t))[i]? = _
    rw [flatMap_getElem?_uniform l _ (itertoolsProduct ls).length hN i]
    rw [List.getElem?_eq_getElem hdiv]
    show ((itertoolsProduct ls).map fun t => _ :: t)[i % (itertoolsProduct ls).length]? = _
    rw [List.getElem?_map, ih (i % (itertoolsProduct ls).length) hmod]
    show some _ = _
    show _ = some (selectCombo (l :: ls) i)
    simp only [selectCombo]
    rw [← itertoolsProduct_length ls]
    rw [List.getD_eq_getElem _ _ hdiv]

/-- C1 (counterexample to the claim as stated): the valid Range
Specification `{"a": ["x", "x"]}` — parameter `a` mapped to an explicit
list — produces the combination `{"a": "x"}` twice, so the output is not
free of duplicate combinations. -/
theorem C1_cross_product_counterexample :
    add_array_parameters [("a", JVal.jlist [JVal.jstr "x", JVal.jstr "x"])] =
      .ok [[("a", JVal.jstr "x")], [("a", JVal.jstr "x")]] ∧
    ¬ ([[("a", JVal.jstr "x")], [("a", JVal.jstr "x")]] :
        List (List (String × JVal))).Nodup := by
  refine ⟨rfl, ?_⟩
  intro h
  rw [List.nodup_cons] at h
  exact h.1 (List.mem_singleton.mpr rfl)

/-- C1 (amended): for a Range Specification whose parameters all expand
successfully (to `param_ranges`), `add_array_parameters` returns exactly
the cross product of the per-parameter value sequences in lexicographic
product order over the declared parameter order: the length is the
product of the sequence lengths; a combination list belongs to the cross
product exactly when it picks one member from each sequence in order;
every cross-product element appears (zipped with the declared names) and
nothing else does; the output has no duplicate combinations provided each
per-parameter sequence is itself duplicate-free (an input list with a
repeated value repeats combinations); and the `i`-th combination is the
mixed-radix decomposition of `i`, i.e. lexicographic product order with
the first declared parameter varying slowest. -/
theorem C1_cross_product_lex_order :
    ∀ (range_array_params : List (String × JVal)) (param_ranges : List (List JVal))
      (out : List (List (String × JVal))),
      expandRanges range_array_params = .ok param_ranges →
      add_array_parameters range_array_params = .ok out →
      out.length = (param_ranges.map List.length).prod ∧
      (∀ combination, combination ∈ itertoolsProduct param_ranges ↔
        List.Forall₂ (fun x l => x ∈ l) combination param_ranges) ∧
      (∀ c, c ∈ itertoolsProduct param_ranges →
        (range_array_params.map Prod.fst).zip c ∈ out) ∧
      (∀ combo, combo ∈ out → ∃ c, c ∈ itertoolsProduct param_ranges ∧
        combo = (range_array_params.map Prod.fst).zip c) ∧
      ((∀ l ∈ param_ranges, l.Nodup) → out.Nodup) ∧
      (∀ i, i < out.length →
        out[i]? = some ((range_array_params.map Prod.fst).zip
          (selectCombo param_ranges i))) := by
  intro spec ranges out h1 h2
  have hout : out = (itertoolsProduct ranges).map
      (fun combination => (spec.map Prod.fst).zip combination) := by
    unfold add_array_parameters at h2
    rw [h1] at h2
    injection h2 with h3
    exact h3.symm
  subst hout
  refine ⟨?_, mem_itertoolsProduct ranges, ?_, ?_, ?_, ?_⟩
  · rw [List.length_map, itertoolsProduct_length]
  · intro c hc
    exact List.mem_map_of_mem _ hc
  · intro combo hcombo
    rcases List.mem_map.mp hcombo with ⟨c, hc, rfl⟩
    exact ⟨c, hc, rfl⟩
  · intro hnodup
    have hnames : (spec.map Prod.fst).length = ranges.length := by
      rw [List.length_map]
      exact (expandRanges_length spec ranges h1).symm
    refine List.Nodup.map_on ?_ (itertoolsProduct_nodup ranges hnodup)
    intro c1 hc1 c2 hc2 he
    exact zip_inj (spec.map Prod.fst) c1 c2
      ((mem_itertoolsProduct_length ranges c1 hc1).trans hnames.symm)
      ((mem_itertoolsProduct_length ranges c2 hc2).trans hnames.symm) he
  · intro i hi
    rw [List.length_map] at hi
    rw [List.getElem?_map, itertoolsProduct_getElem? ranges i hi]
    rfl

/-- Witness for C1: the one-parameter specification `{"a": ["x", "y"]}`
expands to two combinations, the product of the sequence lengths. -/
theorem C1_cross_product_lex_order_witness :
    ((([[JVal.jstr "x", JVal.jstr "y"]] : List (List JVal)).map List.length).prod = 2) ∧
    ([[("a", JVal.jstr "x")], [("a", JVal.jstr "y")]] :
      List (List (String × JVal))).length =
      (([[JVal.jstr "x", JVal.jstr "y"]] : List (List JVal)).map List.length).prod :=
  ⟨rfl,
   (C1_cross_product_lex_order [("a", JVal.jlist [JVal.jstr "x", JVal.jstr "y"])]
     [[JVal.jstr "x", JVal.jstr "y"]]
     [[("a", JVal.jstr "x")], [("a", JVal.jstr "y")]] rfl rfl).1⟩
